import Mathlib

/-!
Shallow embedding of calibre src/calibre/utils/search_query_parser.py:
the lexer (Parser.lex_scanner and the escape pre/post processing in
Parser.parse), the recursive-descent parser (Parser.or_expression,
and_expression, not_expression, location_expression, base_token), the
evaluator (SearchQueryParser.evaluate_and/or/not/token, _parse, parse,
_get_matches) and the saved-search store (SavedSearchQueries).

Modelling conventions:
- Python strings are Lean String values; character level operations work
  on String.data (a List Char) to keep everything kernel-computable.
- icu_lower and str.lower are modelled by ASCII lowercasing (the parser
  only compares ASCII keywords and locations).
- Python exceptions (all ParseException with a message) are modelled by
  Except String; the message strings mirror the source messages.
- The Python call stack (whose exhaustion raises RuntimeError, converted
  by _parse into the recursion-limit ParseException) is modelled by a
  fuel parameter; fuel is consumed once per saved-search expansion and
  once per parser rule invocation.
- searches_seen (a Python set mutated in place and threaded through the
  evaluation order) is a List String threaded through the evaluator;
  recurse_level is passed downward as an argument, which is equivalent
  to the balanced increment/decrement in the source.
- The parse cache is not configured (parse_cache=None in the source
  constructor), so _parse always parses; this matches the AttributeError
  branch of the source.
-/

set_option maxRecDepth 10000

namespace CalibreSQP

/-- Whitespace class of the Python regex engine (ASCII part), as used by
the lex scanner rules r-backslash-s. -/
def pySpace (c : Char) : Bool :=
  c == ' ' || c == '\t' || c == '\n' || c == '\r' || c == '\x0b' || c == '\x0c'

/-- ASCII lowercasing of one character; models icu_lower and str.lower on
the ASCII data the parser compares (operator keywords and locations). -/
def lowerChar (c : Char) : Char :=
  if 'A' ≤ c ∧ c ≤ 'Z' then Char.ofNat (c.toNat + 32) else c

/-- Lowercasing of a whole string, models icu_lower / str.lower. -/
def pyLower (s : String) : String :=
  String.mk (s.data.map lowerChar)

/-- Token kinds of Parser.lex_scanner: OPCODE = 1, WORD = 2,
QUOTED_WORD = 3.  EOF is represented by the end of the token list. -/
inductive TokKind
  | opcode
  | word
  | quoted
deriving DecidableEq

/-- Character class of lexer rule 3, the bare word rule:
any character that is not a quote, a parenthesis or whitespace. -/
def wordChar (c : Char) : Bool :=
  !(c == '"' || c == '(' || c == ')' || pySpace c)

/-- Character class of the tail of lexer rule 2 (the at-sign rule):
any character that is not a quote, a closing parenthesis or whitespace.
Note that an opening parenthesis is allowed here, exactly as in the
source regex. -/
def rule2Class (c : Char) : Bool :=
  !(c == '"' || c == ')' || pySpace c)

/-- Lazy search for the closing quote of lexer rule 4: finds the first
quote character that is not immediately preceded by a backslash, and
returns the text before it together with the remaining input.  prev is
the character just before the current position (initially the opening
quote). -/
def rule4Find (prev : Char) : List Char → Option (List Char × List Char)
  | [] => none
  | c :: rest =>
    if c = '"' ∧ prev ≠ '\\' then some ([], rest)
    else
      match rule4Find c rest with
      | some (t, rem) => some (c :: t, rem)
      | none => none

/-- Backtracking loop of lexer rule 2 after the at sign: the lazy dot
group grows one character at a time (acc, reversed); at each colon the
greedy rule2Class run is tried, and the first colon followed by a
nonempty run wins.  Returns the matched text after the at sign and the
remaining input. -/
def rule2Find : List Char → List Char → Option (List Char × List Char)
  | _, [] => none
  | acc, c :: rest =>
    if c = ':' then
      if rest.takeWhile rule2Class = [] then rule2Find (c :: acc) rest
      else some (acc.reverse ++ c :: rest.takeWhile rule2Class, rest.dropWhile rule2Class)
    else rule2Find (c :: acc) rest

/-- Lexer rule 2 applied just after an at sign: the lazy dot group must
contain at least one character. -/
def rule2Match : List Char → Option (List Char × List Char)
  | [] => none
  | d :: rest => rule2Find [d] rest

/-- The scanning loop of Parser.lex_scanner.scan.  At each position the
rules are tried in source order (single parenthesis; at-sign rule; bare
word; quoted run; whitespace); the rule classes are disjoint on the
first character, so the cascade below is ordered by first character,
with the at-sign rule tried before the bare word rule as in the source.
When no rule matches (a quote with no unescaped closing quote), the
scanner stops and returns the unconsumed remainder, exactly like
re.Scanner.scan.  The fuel argument only serves termination; every
successful rule consumes at least one character, so fuel at least the
input length never runs out. -/
def scanAux : Nat → List Char → List (TokKind × List Char) × List Char
  | 0, l => ([], l)
  | _ + 1, [] => ([], [])
  | f + 1, c :: rest =>
    if c = '(' ∨ c = ')' then
      let p := scanAux f rest
      ((.opcode, [c]) :: p.1, p.2)
    else if c = '"' then
      match rule4Find '"' rest with
      | some (t, rem) =>
        let p := scanAux f rem
        ((.quoted, t) :: p.1, p.2)
      | none => ([], c :: rest)
    else if pySpace c then
      scanAux f (rest.dropWhile pySpace)
    else if c = '@' then
      match rule2Match rest with
      | some (t, rem) =>
        let p := scanAux f rem
        ((.word, '@' :: t) :: p.1, p.2)
      | none =>
        let p := scanAux f ((c :: rest).dropWhile wordChar)
        ((.word, (c :: rest).takeWhile wordChar) :: p.1, p.2)
    else
      let p := scanAux f ((c :: rest).dropWhile wordChar)
      ((.word, (c :: rest).takeWhile wordChar) :: p.1, p.2)

/-- Parser.lex_scanner.scan: returns the token list and the unmatched
remainder of the input. -/
def lexScan (l : List Char) : List (TokKind × List Char) × List Char :=
  scanAux (l.length + 1) l

/-- One str.replace pass for a two-character pattern, replacing each
non-overlapping left-to-right occurrence of the pair a b with r. -/
def replacePair (a b r : Char) : List Char → List Char
  | x :: y :: rest =>
    if x = a ∧ y = b then r :: replacePair a b r rest
    else x :: replacePair a b r (y :: rest)
  | l => l

/-- The escape preprocessing of Parser.parse: escaped backslash, quote
and parentheses are replaced by the private placeholders x01..x04 before
scanning. -/
def preprocessEsc (l : List Char) : List Char :=
  replacePair '\\' ')' '\x04'
    (replacePair '\\' '(' '\x03'
      (replacePair '\\' '"' '\x02'
        (replacePair '\\' '\\' '\x01' l)))

/-- The postprocessing of Parser.parse: placeholders inside WORD and
QUOTED_WORD token text are restored to the escaped characters. -/
def restoreChar (c : Char) : Char :=
  if c = '\x01' then '\\'
  else if c = '\x02' then '"'
  else if c = '\x03' then '('
  else if c = '\x04' then ')'
  else c

/-- The tokenization pipeline of Parser.parse: preprocess escapes, scan
(dropping the unmatched remainder, as scan()[0] does in the source), and
restore placeholders inside WORD and QUOTED_WORD tokens. -/
def lexTokens (query : String) : List (TokKind × String) :=
  (lexScan (preprocessEsc query.data)).1.map fun t =>
    match t.1 with
    | .opcode => (t.1, String.mk t.2)
    | _ => (t.1, String.mk (t.2.map restoreChar))

/-- The AST produced by the parser: the source builds nested lists
tagged with the strings and, or, not, token. -/
inductive Expr
  | and (l r : Expr)
  | or (l r : Expr)
  | not (x : Expr)
  | token (location query : String)
deriving DecidableEq

/-- Python str.split on the colon character. -/
def splitColon : List Char → List (List Char)
  | [] => [[]]
  | c :: r =>
    if c = ':' then [] :: splitColon r
    else
      match splitColon r with
      | [] => [[c]]
      | p :: rest => (c :: p) :: rest

/-- Python colon.join. -/
def joinColon : List (List Char) → List Char
  | [] => []
  | [p] => p
  | p :: q :: rest => p ++ ':' :: joinColon (q :: rest)

/-- First colon-separated part of a word, words[0] in base_token. -/
def firstColonPart (v : String) : String :=
  match splitColon v.data with
  | [] => ""
  | w0 :: _ => String.mk w0

/-- Parser.lcase_token on the current position of the token stream
(None at EOF). -/
def lcaseTok (ts : List (TokKind × String)) : Option String :=
  ts.head?.map fun t => pyLower t.2

/-- Parser.token_type on the current position (EOF is none). -/
def tokKind (ts : List (TokKind × String)) : Option TokKind :=
  ts.head?.map Prod.fst

/-- Parser.token on the current position (None at EOF). -/
def tokText (ts : List (TokKind × String)) : Option String :=
  ts.head?.map Prod.snd

/-- Parser.base_token.  A quoted word is always an all-scoped leaf.  A
bare word is split on colons; if there is more than one part and the
lowercased first part is a recognized location it becomes the leaf
location (with the special case consuming a following QUOTED_WORD as
the query when exactly one part remains); otherwise the entire original
word, colons included, becomes an all-scoped leaf. -/
def baseToken (locations : List String) :
    List (TokKind × String) → Except String (Expr × List (TokKind × String))
  | (.quoted, v) :: rest => .ok (.token "all" v, rest)
  | (.word, v) :: rest =>
    match splitColon v.data with
    | [] => .ok (.token "all" v, rest)
    | w0 :: wrest =>
      if wrest ≠ [] ∧ pyLower (String.mk w0) ∈ locations then
        if wrest.length = 1 ∧ tokKind rest = some .quoted then
          .ok (.token (pyLower (String.mk w0)) ((tokText rest).getD ""), rest.tail)
        else
          .ok (.token (pyLower (pyLower (String.mk w0))) (String.mk (joinColon wrest)), rest)
      else .ok (.token "all" (String.mk (joinColon (w0 :: wrest))), rest)
  | _ => .error "Invalid syntax. Expected a lookup name or a word"

/-- Names for the four mutually recursive grammar rules of the source:
or_expression, and_expression, not_expression, location_expression. -/
inductive RuleId
  | orR
  | andR
  | notR
  | locR
deriving DecidableEq

/-- The recursive-descent parser of class Parser, with the four rules
folded into one fueled function (fuel models the Python call stack; its
exhaustion stands for the RuntimeError raised on stack overflow, which
_parse converts to a ParseException).  Each branch mirrors the
corresponding source method line by line. -/
def parseRule (locations : List String) :
    Nat → RuleId → List (TokKind × String) → Except String (Expr × List (TokKind × String))
  | 0, _, _ => .error "RuntimeError"
  | f + 1, .orR, ts =>
    match parseRule locations f .andR ts with
    | .error e => .error e
    | .ok (lhs, ts1) =>
      if lcaseTok ts1 = some "or" then
        match parseRule locations f .orR ts1.tail with
        | .error e => .error e
        | .ok (rhs, ts2) => .ok (.or lhs rhs, ts2)
      else .ok (lhs, ts1)
  | f + 1, .andR, ts =>
    match parseRule locations f .notR ts with
    | .error e => .error e
    | .ok (lhs, ts1) =>
      if lcaseTok ts1 = some "and" then
        match parseRule locations f .andR ts1.tail with
        | .error e => .error e
        | .ok (rhs, ts2) => .ok (.and lhs rhs, ts2)
      else if (tokKind ts1 = some .word ∨ tokKind ts1 = some .quoted) ∧
          lcaseTok ts1 ≠ some "or" then
        match parseRule locations f .andR ts1 with
        | .error e => .error e
        | .ok (rhs, ts2) => .ok (.and lhs rhs, ts2)
      else .ok (lhs, ts1)
  | f + 1, .notR, ts =>
    if lcaseTok ts = some "not" then
      match parseRule locations f .notR ts.tail with
      | .error e => .error e
      | .ok (rhs, ts2) => .ok (.not rhs, ts2)
    else parseRule locations f .locR ts
  | f + 1, .locR, ts =>
    if tokKind ts = some .opcode ∧ tokText ts = some "(" then
      match parseRule locations f .orR ts.tail with
      | .error e => .error e
      | .ok (res, ts1) =>
        if tokKind ts1 = some .opcode ∧ tokText ts1 = some ")" then .ok (res, ts1.tail)
        else .error "missing )"
    else if tokKind ts = some .word ∨ tokKind ts = some .quoted then
      baseToken locations ts
    else .error "Invalid syntax. Expected a lookup name or a word"

/-- Default parser fuel for a single Parser.parse call; the Python stack
budget is far larger than any recursion depth exercised here. -/
def parserFuel : Nat := 100

/-- Parser.parse: tokenize, run or_expression, and require that all
tokens were consumed. -/
def pParse (query : String) (locations : List String) : Except String Expr :=
  match parseRule locations parserFuel .orR (lexTokens query) with
  | .error e => .error e
  | .ok (prog, rest) =>
    if rest = [] then .ok prog else .error "Extra characters at end of search"

/-- The state of a SearchQueryParser instance that the evaluator reads:
the location list, the optimize flag, the saved-search lookup function
and the external matcher (which receives some candidates exactly when
optimize is set, mirroring _get_matches), plus universal_set. -/
structure SQP where
  locations : List String
  optimize : Bool
  lookup_saved_search : String → Option String
  get_matches : String → String → Option (Finset Nat) → Finset Nat
  universal_set : Finset Nat

/-- SearchQueryParser._get_matches: pass the candidates to the matcher
only when optimize is set. -/
def sqpGetMatches (p : SQP) (location query : String) (candidates : Finset Nat) : Finset Nat :=
  if p.optimize then p.get_matches location query (some candidates)
  else p.get_matches location query none

/-- Strip a single leading equals sign, query[1:] in evaluate_token. -/
def stripEq (q : String) : String :=
  match q.data with
  | '=' :: rest => String.mk rest
  | _ => q

/-- SearchQueryParser.evaluate together with evaluate_and, evaluate_or,
evaluate_not and evaluate_token.  The uparse argument stands for
self._parse at the current remaining stack budget; level is
recurse_level and seen is searches_seen, threaded in evaluation order.
The and node evaluates its right side over the left matches; the or
node evaluates its right side over the candidates minus the left
matches; the not node subtracts from the candidates; a search token
checks the seen set, records the name once the level exceeds 5, looks
the name up and expands it via uparse; any other token delegates to the
matcher. -/
def evalWith (p : SQP)
    (uparse : Nat → List String → String → Finset Nat → Except String (Finset Nat × List String)) :
    Nat → List String → Expr → Finset Nat → Except String (Finset Nat × List String)
  | level, seen, .and l r, c =>
    match evalWith p uparse level seen l c with
    | .error e => .error e
    | .ok (lres, s1) =>
      match evalWith p uparse level s1 r lres with
      | .error e => .error e
      | .ok (rres, s2) => .ok (lres ∩ rres, s2)
  | level, seen, .or l r, c =>
    match evalWith p uparse level seen l c with
    | .error e => .error e
    | .ok (lres, s1) =>
      match evalWith p uparse level s1 r (c \ lres) with
      | .error e => .error e
      | .ok (rres, s2) => .ok (lres ∪ rres, s2)
  | level, seen, .not x, c =>
    match evalWith p uparse level seen x c with
    | .error e => .error e
    | .ok (xres, s1) => .ok (c \ xres, s1)
  | level, seen, .token location query, c =>
    if pyLower location = "search" then
      let q1 := stripEq query
      if q1 ∈ seen then .error ("Recursive saved search: " ++ q1)
      else
        let seen1 := if 5 < level then List.insert q1 seen else seen
        match p.lookup_saved_search q1 with
        | none => .error ("Unknown saved search: " ++ q1)
        | some ssq => uparse level seen1 ssq c
    else .ok (sqpGetMatches p location query c, seen)

/-- SearchQueryParser._parse (with no parse cache configured): parse the
query (converting the RuntimeError sentinel into the recursion-limit
ParseException message) and evaluate the AST at recurse_level + 1.
Fuel exhaustion is the stack overflow itself. -/
def underscore_parse (p : SQP) :
    Nat → Nat → List String → String → Finset Nat → Except String (Finset Nat × List String)
  | 0, _, _, query, _ => .error ("Failed to parse query, recursion limit reached: " ++ query)
  | f + 1, level, seen, query, cands =>
    match pParse query p.locations with
    | .error e =>
      .error (if e = "RuntimeError"
        then "Failed to parse query, recursion limit reached: " ++ query else e)
    | .ok ast =>
      evalWith p (fun lv sn q c => underscore_parse p f lv sn q c) (level + 1) seen ast cands

/-- The evaluator entry on an already parsed AST: evalWith with
saved-search expansion going through underscore_parse at the given
remaining fuel. -/
def evaluate (p : SQP) (fuel level : Nat) (seen : List String) (e : Expr) (c : Finset Nat) :
    Except String (Finset Nat × List String) :=
  evalWith p (fun lv sn q cd => underscore_parse p fuel lv sn q cd) level seen e c

/-- SearchQueryParser.parse: reset recurse_level and searches_seen,
take the universal set as candidates and run _parse. -/
def sqp_parse (p : SQP) (fuel : Nat) (query : String) :
    Except String (Finset Nat × List String) :=
  underscore_parse p fuel 0 [] query p.universal_set

/-- Tokens whose location is not the reserved saved-search keyword, at
every leaf of the expression. -/
def searchFree : Expr → Bool
  | .and l r => searchFree l && searchFree r
  | .or l r => searchFree l && searchFree r
  | .not x => searchFree x
  | .token location _ => pyLower location != "search"

/-- Pointwise semantics of an expression induced by a per-item
satisfaction predicate for leaves. -/
def semE (sat : String → String → Nat → Bool) : Expr → Nat → Bool
  | .and l r, i => semE sat l i && semE sat r i
  | .or l r, i => semE sat l i || semE sat r i
  | .not x, i => !(semE sat x i)
  | .token location query, i => sat location query i

/-- The candidates-honoring part of the collaborator contract: when the
matcher is given a candidate set it returns a subset of it. -/
def honorsCandidates (p : SQP) : Prop :=
  ∀ location query s, p.get_matches location query (some s) ⊆ s

/-- The saved-search store SavedSearchQueries: its queries dict is an
ordered association list from names to stored values; a stored value is
an Option String because rename can store None. -/
structure SavedSearchQueries where
  queries : List (String × Option String)
deriving DecidableEq

/-- Python dict get without default: the first binding of the key. -/
def dictGet : List (String × Option String) → String → Option (Option String)
  | [], _ => none
  | (k, v) :: rest, name => if k = name then some v else dictGet rest name

/-- Python dict item assignment: replace the value of an existing key in
place, or append a new binding at the end. -/
def dictSet : List (String × Option String) → String → Option String →
    List (String × Option String)
  | [], name, value => [(name, value)]
  | (k, v) :: rest, name, value =>
    if k = name then (k, value) :: rest else (k, v) :: dictSet rest name value

/-- Python dict.pop with a default: remove the binding of the key if
present. -/
def dictPop : List (String × Option String) → String → List (String × Option String)
  | [], _ => []
  | (k, v) :: rest, name => if k = name then rest else (k, v) :: dictPop rest name

/-- Python str.strip: remove leading and trailing whitespace. -/
def pyStrip (s : String) : String :=
  String.mk (((s.data.dropWhile pySpace).reverse.dropWhile pySpace).reverse)

/-- SavedSearchQueries.add (force_unicode is the identity on strings). -/
def SavedSearchQueries.add (s : SavedSearchQueries) (name value : String) :
    SavedSearchQueries :=
  ⟨dictSet s.queries name (some (pyStrip value))⟩

/-- SavedSearchQueries.lookup: queries.get(name, None); a stored None
and an absent name both give the absent marker. -/
def SavedSearchQueries.lookup (s : SavedSearchQueries) (name : String) : Option String :=
  match dictGet s.queries name with
  | some v => v
  | none => none

/-- SavedSearchQueries.delete. -/
def SavedSearchQueries.delete (s : SavedSearchQueries) (name : String) : SavedSearchQueries :=
  ⟨dictPop s.queries name⟩

/-- SavedSearchQueries.rename: store queries.get(old_name, None) under
new_name, then pop old_name. -/
def SavedSearchQueries.rename (s : SavedSearchQueries) (old_name new_name : String) :
    SavedSearchQueries :=
  ⟨dictPop (dictSet s.queries new_name (s.lookup old_name)) old_name⟩

/-- Stable insertion into a sorted list, helper for the sort model. -/
def insSorted (le : String → String → Bool) (a : String) : List String → List String
  | [] => [a]
  | b :: rest => if le a b then a :: b :: rest else b :: insSorted le a rest

/-- A stable sort, modelling Python sorted with the icu sort_key
collation abstracted to lexicographic string order. -/
def insSort (le : String → String → Bool) : List String → List String
  | [] => []
  | a :: rest => insSorted le a (insSort le rest)

/-- SavedSearchQueries.names: the keys of the dict, sorted. -/
def SavedSearchQueries.names (s : SavedSearchQueries) : List String :=
  insSort (fun a b => decide (a ≤ b)) (s.queries.map Prod.fst)

/-- A concrete parser state with a candidates-honoring matcher, used to
instantiate theorems with hypotheses. -/
def pHon : SQP :=
  ⟨[], true, fun _ => none,
    fun _ _ oc => match oc with
      | some s => s ∩ {1}
      | none => ∅,
    {1, 2}⟩

/-- A concrete parser state whose matcher honors candidates but is not
monotone across candidate sets: location xa matches item 1 inside any
candidate set, every other location matches the whole candidate set
when it has at most one element and nothing otherwise. -/
def pCex : SQP :=
  ⟨[], true, fun _ => none,
    fun location _ oc => match oc with
      | some s => if location = "xa" then s ∩ {1} else if s.card ≤ 1 then s else ∅
      | none => ∅,
    {1, 2}⟩

/-- A per-item satisfaction predicate for the pointwise example. -/
def satPw : String → String → Nat → Bool :=
  fun location _ i => if location = "xa" then i == 1 else true

/-- A concrete parser state with a pointwise candidates-honoring
matcher generated by satPw. -/
def pPw : SQP :=
  ⟨[], true, fun _ => none,
    fun location query oc => match oc with
      | some s => s.filter fun i => satPw location query i = true
      | none => ∅,
    {1, 2}⟩

/-- A concrete parser state whose saved-search store maps the name x to
the query string search:x, so that evaluating search:x is directly
self-referential. -/
def p3 : SQP :=
  ⟨["search"], false, fun n => if n = "x" then some "search:x" else none,
    fun _ _ _ => ∅, ∅⟩

end CalibreSQP

deriving instance DecidableEq for Except

namespace CalibreSQP

/-- Dropping a prefix never lengthens a list. -/
theorem length_dropWhile_le {α : Type} (p : α → Bool) :
    ∀ l : List α, (l.dropWhile p).length ≤ l.length
  | [] => Nat.le_refl 0
  | a :: l => by
    rw [List.dropWhile_cons]
    split
    · exact Nat.le_succ_of_le (length_dropWhile_le p l)
    · exact Nat.le_refl _

/-- A successful quoted-run match consumes at least the closing quote. -/
theorem rule4Find_length :
    ∀ (l : List Char) (prev : Char) (t rem : List Char),
      rule4Find prev l = some (t, rem) → rem.length < l.length := by
  intro l
  induction l with
  | nil => intro prev t rem h; simp [rule4Find] at h
  | cons c rest ih =>
    intro prev t rem h
    simp only [rule4Find] at h
    split at h
    · simp only [Option.some.injEq, Prod.mk.injEq] at h
      obtain ⟨-, h2⟩ := h
      subst h2
      simp
    · cases hr : rule4Find c rest with
      | none => rw [hr] at h; simp at h
      | some pr =>
        obtain ⟨t2, rem2⟩ := pr
        rw [hr] at h
        simp only [Option.some.injEq, Prod.mk.injEq] at h
        obtain ⟨-, h2⟩ := h
        subst h2
        exact Nat.lt_succ_of_lt (ih c t2 rem2 hr)

/-- The at-sign rule search never lengthens the remaining input. -/
theorem rule2Find_length :
    ∀ (l acc t rem : List Char),
      rule2Find acc l = some (t, rem) → rem.length ≤ l.length := by
  intro l
  induction l with
  | nil => intro acc t rem h; simp [rule2Find] at h
  | cons c rest ih =>
    intro acc t rem h
    simp only [rule2Find] at h
    split at h
    · split at h
      · exact Nat.le_succ_of_le (ih (c :: acc) t rem h)
      · simp only [Option.some.injEq, Prod.mk.injEq] at h
        obtain ⟨-, h2⟩ := h
        subst h2
        exact Nat.le_succ_of_le (length_dropWhile_le rule2Class rest)
    · exact Nat.le_succ_of_le (ih (c :: acc) t rem h)

/-- A successful at-sign rule match strictly consumes input. -/
theorem rule2Match_length :
    ∀ (l t rem : List Char), rule2Match l = some (t, rem) → rem.length < l.length := by
  intro l t rem h
  cases l with
  | nil => simp [rule2Match] at h
  | cons d rest =>
    simp only [rule2Match] at h
    exact Nat.lt_succ_of_le (rule2Find_length rest [d] t rem h)

/-- The scanner consumes the whole input unless it reaches a quote with no unescaped closing quote, in which case the remainder starts at that quote. -/
theorem scanAux_rest :
    ∀ (f : Nat) (l : List Char), l.length ≤ f →
      (scanAux f l).2 = [] ∨
        ∃ r, (scanAux f l).2 = '"' :: r ∧ rule4Find '"' r = none := by
  intro f
  induction f with
  | zero =>
    intro l hl
    rw [List.length_eq_zero.mp (Nat.le_zero.mp hl)]
    simp [scanAux]
  | succ f ih =>
    intro l hl
    match l with
    | [] => simp [scanAux]
    | c :: rest =>
      have hrest : rest.length ≤ f := Nat.le_of_succ_le_succ (by simpa using hl)
      simp only [scanAux]
      split
      · exact ih rest hrest
      · split
        · rename_i hq
          cases h4 : rule4Find '"' rest with
          | some pr =>
            obtain ⟨t, rem⟩ := pr
            have := rule4Find_length rest '"' t rem h4
            exact ih rem (Nat.le_of_lt (Nat.lt_of_lt_of_le this hrest))
          | none =>
            right
            exact ⟨rest, by simp [hq], h4⟩
        · split
          · exact ih _ (Nat.le_trans (length_dropWhile_le pySpace rest) hrest)
          · split
            · rename_i hat
              cases h2 : rule2Match rest with
              | some pr =>
                obtain ⟨t, rem⟩ := pr
                have := rule2Match_length rest t rem h2
                exact ih rem (Nat.le_of_lt (Nat.lt_of_lt_of_le this hrest))
              | none =>
                have hwc : wordChar c = true := by
                  subst hat; decide
                rw [List.dropWhile_cons, if_pos hwc]
                exact ih _ (Nat.le_trans (length_dropWhile_le wordChar rest) hrest)
            · rename_i hpar hq hsp hat
              have hwc : wordChar c = true := by
                push_neg at hpar
                simp only [Bool.not_eq_true] at hsp
                simp [wordChar, beq_iff_eq, hpar.1, hpar.2, hq, hsp]
              rw [List.dropWhile_cons, if_pos hwc]
              exact ih _ (Nat.le_trans (length_dropWhile_le wordChar rest) hrest)

/-- Splitting on colons always yields at least one part. -/
theorem splitColon_ne_nil (l : List Char) : splitColon l ≠ [] := by
  cases l with
  | nil => simp [splitColon]
  | cons c r =>
    simp only [splitColon]
    split
    · simp
    · split <;> simp

/-- Joining the colon-split parts with colons restores the original characters. -/
theorem joinColon_splitColon : ∀ l : List Char, joinColon (splitColon l) = l := by
  intro l
  induction l with
  | nil => rfl
  | cons c r ih =>
    simp only [splitColon]
    split
    · rename_i hc
      cases hs : splitColon r with
      | nil => exact absurd hs (splitColon_ne_nil r)
      | cons p rest =>
        rw [hs] at ih
        simp [joinColon, ih, hc]
    · rename_i hc
      cases hs : splitColon r with
      | nil => exact absurd hs (splitColon_ne_nil r)
      | cons p rest =>
        rw [hs] at ih
        cases rest with
        | nil => simp_all [joinColon]
        | cons q rest2 => simp_all [joinColon]

/-- With a candidates-honoring matcher in optimize mode and a saved-search expander that honors candidates, every successful evaluation returns a subset of its candidate set. -/
theorem evalWith_subset (p : SQP) (hopt : p.optimize = true)
    (hm : ∀ location query s, p.get_matches location query (some s) ⊆ s)
    (uparse : Nat → List String → String → Finset Nat → Except String (Finset Nat × List String))
    (hu : ∀ lv sn q c r s2, uparse lv sn q c = .ok (r, s2) → r ⊆ c) :
    ∀ (e : Expr) (level : Nat) (seen : List String) (c r : Finset Nat) (s2 : List String),
      evalWith p uparse level seen e c = .ok (r, s2) → r ⊆ c := by
  intro e
  induction e with
  | and l r ihl ihr =>
    intro level seen c res s2 h
    simp only [evalWith] at h
    cases hL : evalWith p uparse level seen l c with
    | error e => simp [hL] at h
    | ok x =>
      obtain ⟨L, s1⟩ := x
      simp only [hL] at h
      cases hR : evalWith p uparse level s1 r L with
      | error e => simp [hR] at h
      | ok y =>
        obtain ⟨R, s2b⟩ := y
        simp only [hR] at h
        simp only [Except.ok.injEq, Prod.mk.injEq] at h
        obtain ⟨h1, -⟩ := h
        subst h1
        exact Finset.Subset.trans Finset.inter_subset_left (ihl level seen c L s1 hL)
  | or l r ihl ihr =>
    intro level seen c res s2 h
    simp only [evalWith] at h
    cases hL : evalWith p uparse level seen l c with
    | error e => simp [hL] at h
    | ok x =>
      obtain ⟨L, s1⟩ := x
      simp only [hL] at h
      cases hR : evalWith p uparse level s1 r (c \ L) with
      | error e => simp [hR] at h
      | ok y =>
        obtain ⟨R, s2b⟩ := y
        simp only [hR] at h
        simp only [Except.ok.injEq, Prod.mk.injEq] at h
        obtain ⟨h1, -⟩ := h
        subst h1
        refine Finset.union_subset (ihl level seen c L s1 hL) ?_
        exact Finset.Subset.trans (ihr level s1 (c \ L) R s2b hR) (Finset.sdiff_subset)
  | not x ihx =>
    intro level seen c res s2 h
    simp only [evalWith] at h
    cases hX : evalWith p uparse level seen x c with
    | error e => simp [hX] at h
    | ok y =>
      obtain ⟨X, s1⟩ := y
      simp only [hX] at h
      simp only [Except.ok.injEq, Prod.mk.injEq] at h
      obtain ⟨h1, -⟩ := h
      subst h1
      exact Finset.sdiff_subset
  | token location query =>
    intro level seen c res s2 h
    simp only [evalWith] at h
    split at h
    · split at h
      · simp at h
      · cases hl : p.lookup_saved_search (stripEq query) with
        | none => simp [hl] at h
        | some ssq =>
          simp only [hl] at h
          exact hu _ _ _ _ _ _ h
    · simp only [Except.ok.injEq, Prod.mk.injEq] at h
      obtain ⟨h1, -⟩ := h
      subst h1
      simp only [sqpGetMatches, hopt, if_pos]
      exact hm location query c

/-- With a candidates-honoring matcher in optimize mode, a successful parse-and-evaluate returns a subset of its candidate set, for every fuel. -/
theorem underscore_parse_subset (p : SQP) (hopt : p.optimize = true)
    (hm : ∀ location query s, p.get_matches location query (some s) ⊆ s) :
    ∀ (fuel level : Nat) (seen : List String) (query : String) (c r : Finset Nat) (s2 : List String),
      underscore_parse p fuel level seen query c = .ok (r, s2) → r ⊆ c := by
  intro fuel
  induction fuel with
  | zero => intro level seen query c r s2 h; simp [underscore_parse] at h
  | succ f ih =>
    intro level seen query c r s2 h
    simp only [underscore_parse] at h
    cases hp : pParse query p.locations with
    | error e => simp [hp] at h
    | ok ast =>
      simp only [hp] at h
      exact evalWith_subset p hopt hm _
        (fun lv sn q cd rr ss hh => ih lv sn q cd rr ss hh) ast _ _ _ _ _ h

/-- With a candidates-honoring matcher in optimize mode, a successful evaluation returns a subset of its candidate set. -/
theorem evaluate_subset (p : SQP) (hopt : p.optimize = true)
    (hm : ∀ location query s, p.get_matches location query (some s) ⊆ s)
    (fuel level : Nat) (seen : List String) (e : Expr) (c r : Finset Nat) (s2 : List String)
    (h : evaluate p fuel level seen e c = .ok (r, s2)) : r ⊆ c :=
  evalWith_subset p hopt hm _
    (fun lv sn q cd rr ss hh => underscore_parse_subset p hopt hm fuel lv sn q cd rr ss hh)
    e level seen c r s2 h

/-- With a pointwise matcher in optimize mode, the evaluation of a saved-search-free expression filters the candidate set by the pointwise semantics and leaves the seen set unchanged. -/
theorem evalWith_pointwise (p : SQP) (sat : String → String → Nat → Bool)
    (hopt : p.optimize = true)
    (hm : ∀ location query s,
      p.get_matches location query (some s) = s.filter fun i => sat location query i = true)
    (uparse : Nat → List String → String → Finset Nat → Except String (Finset Nat × List String)) :
    ∀ (e : Expr), searchFree e = true → ∀ (level : Nat) (seen : List String) (c : Finset Nat),
      evalWith p uparse level seen e c =
        .ok (c.filter fun i => semE sat e i = true, seen) := by
  intro e
  induction e with
  | and l r ihl ihr =>
    intro hsf level seen c
    simp only [searchFree, Bool.and_eq_true] at hsf
    simp only [evalWith, ihl hsf.1, ihr hsf.2]
    congr 1
    refine Prod.ext ?_ rfl
    ext i
    simp only [Finset.mem_inter, Finset.mem_filter, semE, Bool.and_eq_true]
    tauto
  | or l r ihl ihr =>
    intro hsf level seen c
    simp only [searchFree, Bool.and_eq_true] at hsf
    simp only [evalWith, ihl hsf.1, ihr hsf.2]
    congr 1
    refine Prod.ext ?_ rfl
    ext i
    simp only [Finset.mem_union, Finset.mem_filter, Finset.mem_sdiff, semE, Bool.or_eq_true]
    tauto
  | not x ihx =>
    intro hsf level seen c
    simp only [searchFree] at hsf
    simp only [evalWith, ihx hsf]
    congr 1
    refine Prod.ext ?_ rfl
    ext i
    simp only [Finset.mem_sdiff, Finset.mem_filter, semE, Bool.not_eq_true']
    constructor
    · rintro ⟨hi, hn⟩
      refine ⟨hi, ?_⟩
      by_contra hcon
      exact hn ⟨hi, by simpa using hcon⟩
    · rintro ⟨hi, hn⟩
      exact ⟨hi, fun hmem => by simp [hmem.2] at hn⟩
  | token location query =>
    intro hsf level seen c
    simp only [searchFree, bne_iff_ne, ne_eq] at hsf
    simp only [evalWith, if_neg hsf, sqpGetMatches, hopt, if_pos, hm]
    rfl

/-- Looking up a key just assigned returns the assigned value. -/
theorem dictGet_dictSet_self :
    ∀ (l : List (String × Option String)) (k : String) (v : Option String),
      dictGet (dictSet l k v) k = some v := by
  intro l
  induction l with
  | nil => intro k v; simp [dictSet, dictGet]
  | cons kv rest ih =>
    intro k v
    obtain ⟨k2, v2⟩ := kv
    simp only [dictSet]
    split
    · rename_i he
      simp [dictGet, he]
    · rename_i he
      simp [dictGet, he, ih]

/-- Popping one key leaves lookups of other keys unchanged. -/
theorem dictGet_dictPop_ne :
    ∀ (l : List (String × Option String)) (k other : String), other ≠ k →
      dictGet (dictPop l other) k = dictGet l k := by
  intro l
  induction l with
  | nil => intro k other hne; simp [dictPop]
  | cons kv rest ih =>
    intro k other hne
    obtain ⟨k2, v2⟩ := kv
    simp only [dictPop]
    split
    · rename_i he
      subst he
      simp [dictGet, hne]
    · simp only [dictGet]
      split
      · rfl
      · exact ih k other hne

/-- An assigned key is among the keys. -/
theorem mem_keys_dictSet :
    ∀ (l : List (String × Option String)) (k : String) (v : Option String),
      k ∈ (dictSet l k v).map Prod.fst := by
  intro l
  induction l with
  | nil => intro k v; simp [dictSet]
  | cons kv rest ih =>
    intro k v
    obtain ⟨k2, v2⟩ := kv
    simp only [dictSet]
    split
    · rename_i he
      simp [he]
    · simpa using Or.inr (by simpa using ih k v)

/-- Popping one key keeps other keys present. -/
theorem mem_keys_dictPop_ne :
    ∀ (l : List (String × Option String)) (k other : String), k ≠ other →
      k ∈ l.map Prod.fst → k ∈ (dictPop l other).map Prod.fst := by
  intro l
  induction l with
  | nil => intro k other hne h; simp at h
  | cons kv rest ih =>
    intro k other hne h
    obtain ⟨k2, v2⟩ := kv
    simp only [dictPop]
    split
    · rename_i he
      subst he
      simp only [List.map_cons, List.mem_cons] at h
      rcases h with h | h
      · exact absurd h hne
      · exact h
    · simp only [List.map_cons, List.mem_cons] at h ⊢
      rcases h with h | h
      · exact Or.inl h
      · exact Or.inr (ih k other hne h)

/-- Membership after sorted insertion. -/
theorem mem_insSorted (le : String → String → Bool) (a b : String) :
    ∀ l : List String, b ∈ insSorted le a l ↔ b = a ∨ b ∈ l := by
  intro l
  induction l with
  | nil => simp [insSorted]
  | cons x rest ih =>
    simp only [insSorted]
    split
    · simp [List.mem_cons]
    · simp only [List.mem_cons, ih]
      tauto

/-- Sorting preserves membership. -/
theorem mem_insSort (le : String → String → Bool) (b : String) :
    ∀ l : List String, b ∈ insSort le l ↔ b ∈ l := by
  intro l
  induction l with
  | nil => simp [insSort]
  | cons a rest ih =>
    simp only [insSort, mem_insSorted, ih, List.mem_cons]

/-- On a single bare word, base_token always succeeds and consumes the word. -/
theorem baseToken_single (locations : List String) (v : String) :
    ∃ e, baseToken locations [(.word, v)] = .ok (e, []) := by
  simp only [baseToken]
  split
  · exact ⟨_, rfl⟩
  · split
    · split
      · exact ⟨_, rfl⟩
      · exact ⟨_, rfl⟩
    · exact ⟨_, rfl⟩

/-- On a single bare word that is not the not keyword, the whole grammar reduces to base_token. -/
theorem parseRule_single_word (locations : List String) (f : Nat) (v : String)
    (h1 : pyLower v ≠ "not") :
    parseRule locations (f + 4) .orR [(.word, v)] = baseToken locations [(.word, v)] := by
  obtain ⟨e, he⟩ := baseToken_single locations v
  have hcop : ¬(tokKind [(TokKind.word, v)] = some TokKind.opcode ∧
      tokText [(TokKind.word, v)] = some "(") := by
    rintro ⟨hc, -⟩
    simp [tokKind] at hc
  have hword : tokKind [(TokKind.word, v)] = some TokKind.word ∨
      tokKind [(TokKind.word, v)] = some TokKind.quoted := Or.inl rfl
  have hloc : parseRule locations (f + 1) .locR [(.word, v)] = .ok (e, []) := by
    rw [show f + 1 = Nat.succ f from rfl, parseRule.eq_5, if_neg hcop, if_pos hword]
    exact he
  have hnotk : ¬(lcaseTok [(TokKind.word, v)] = some "not") := by
    simp [lcaseTok, h1]
  have hnot : parseRule locations (f + 2) .notR [(.word, v)] = .ok (e, []) := by
    rw [show f + 2 = Nat.succ (f + 1) from rfl, parseRule.eq_4, if_neg hnotk]
    exact hloc
  have hand : parseRule locations (f + 3) .andR [(.word, v)] = .ok (e, []) := by
    rw [show f + 3 = Nat.succ (f + 2) from rfl, parseRule.eq_3, hnot]
    simp [lcaseTok, tokKind]
  rw [show f + 4 = Nat.succ (f + 3) from rfl, parseRule.eq_2, hand]
  simp [lcaseTok, he]

/-- C1: the evaluator computes And(l, r) over candidates c as L intersect evaluate(r, L) where L = evaluate(l, c), the right side being evaluated only over the left matches; and Or(l, r) as L union evaluate(r, c minus L), the right side being evaluated only over candidates the left side did not match.  The seen set threads through in evaluation order. -/
theorem evaluate_and_or_narrowing (p : SQP) (fuel level : Nat) (seen : List String)
    (l r : Expr) (c : Finset Nat) :
    (evaluate p fuel level seen (.and l r) c =
      (evaluate p fuel level seen l c).bind fun x =>
        (evaluate p fuel level x.2 r x.1).map fun y => (x.1 ∩ y.1, y.2)) ∧
    (evaluate p fuel level seen (.or l r) c =
      (evaluate p fuel level seen l c).bind fun x =>
        (evaluate p fuel level x.2 r (c \ x.1)).map fun y => (x.1 ∪ y.1, y.2)) := by
  constructor
  · cases hL : evaluate p fuel level seen l c with
    | error e =>
      simp only [evaluate] at hL
      simp only [evaluate, evalWith, hL, Except.bind]
    | ok x =>
      obtain ⟨L, s1⟩ := x
      simp only [evaluate] at hL
      cases hR : evalWith p (fun lv sn q cd => underscore_parse p fuel lv sn q cd) level s1 r L with
      | error e => simp only [evaluate, evalWith, hL, hR, Except.bind, Except.map]
      | ok y => simp only [evaluate, evalWith, hL, hR, Except.bind, Except.map]
  · cases hL : evaluate p fuel level seen l c with
    | error e =>
      simp only [evaluate] at hL
      simp only [evaluate, evalWith, hL, Except.bind]
    | ok x =>
      obtain ⟨L, s1⟩ := x
      simp only [evaluate] at hL
      cases hR : evalWith p (fun lv sn q cd => underscore_parse p fuel lv sn q cd) level s1 r (c \ L) with
      | error e => simp only [evaluate, evalWith, hL, hR, Except.bind, Except.map]
      | ok y => simp only [evaluate, evalWith, hL, hR, Except.bind, Except.map]

/-- C2 counterexample: in the query a quoted-or b, the QUOTED_WORD with text or is treated as the or operator, not as a literal all-scoped leaf, because the keyword checks use lcase_token which ignores the token kind. -/
theorem quoted_or_is_operator_counterexample :
    pParse "a \"or\" b" [] = .ok (.or (.token "all" "a") (.token "all" "b")) ∧
    pParse "a \"or\" b" [] ≠
      .ok (.and (.token "all" "a") (.and (.token "all" "or") (.token "all" "b"))) := by
  constructor
  · decide
  · decide

/-- C2 amended: keyword recognition is case-insensitive and depends only on the lowercased token text, not on the WORD versus QUOTED_WORD kind: after the left operand of or_expression, any token of any kind whose lowercase text is or is consumed as the or operator. -/
theorem operator_keyword_ignores_token_kind (locations : List String) (f : Nat)
    (ts rest : List (TokKind × String)) (lhs : Expr) (k : TokKind) (v : String)
    (h1 : parseRule locations f .andR ts = .ok (lhs, (k, v) :: rest))
    (h2 : pyLower v = "or") :
    parseRule locations (f + 1) .orR ts =
      (parseRule locations f .orR rest).map fun x => (.or lhs x.1, x.2) := by
  simp only [parseRule, h1]
  rw [if_pos]
  · simp only [List.tail_cons]
    cases hr : parseRule locations f .orR rest with
    | error e => simp only [hr, Except.map]
    | ok x => simp only [hr, Except.map]
  · simp [lcaseTok, h2]

/-- Witness for the amended C2 at a concrete token stream whose operator token is an uppercase QUOTED_WORD. -/
theorem operator_keyword_ignores_token_kind_witness :
    parseRule [] 10 .andR [(.word, "a"), (.quoted, "OR"), (.word, "b")] =
      .ok (.token "all" "a", [(.quoted, "OR"), (.word, "b")]) ∧
    pyLower "OR" = "or" ∧
    parseRule [] 11 .orR [(.word, "a"), (.quoted, "OR"), (.word, "b")] =
      (parseRule [] 10 .orR [(.word, "b")]).map fun x => (.or (.token "all" "a") x.1, x.2) :=
  ⟨by decide, by decide,
    operator_keyword_ignores_token_kind [] 10 [(.word, "a"), (.quoted, "OR"), (.word, "b")] [(.word, "b")]
      (.token "all" "a") .quoted "OR" (by decide) (by decide)⟩

/-- C3: with a saved-search store mapping x to search:x, evaluating the query search:x terminates with the recursive saved search error for every sufficiently large stack budget (seven or more frames), with no other error and no unbounded recursion. -/
theorem self_referential_saved_search_raises_recursive_error (n : Nat) :
    sqp_parse p3 (n + 7) "search:x" = .error "Recursive saved search: x" := rfl

/-- C4 counterexample: lexing the query ab followed by an unterminated quoted cd yields only the token ab; the non-whitespace character c of the query appears in no token, so part of the input is silently dropped rather than falling through to the bare word rule. -/
theorem unterminated_quote_drops_input_counterexample :
    lexTokens "ab \"cd" = [(.word, "ab")] ∧
    'c' ∈ "ab \"cd".data ∧
    pySpace 'c' = false ∧
    ∀ t ∈ lexTokens "ab \"cd", 'c' ∉ t.2.data := by
  refine ⟨by decide, by decide, by decide, ?_⟩
  decide

/-- C4 amended: tokenization never raises, but an unterminated quote is not degraded to literal text: the scanner either consumes the whole input or stops exactly at a quote character that has no unescaped closing quote, dropping it and everything after it. -/
theorem unterminated_quote_stops_scanner (l : List Char) :
    (lexScan l).2 = [] ∨
      ∃ r, (lexScan l).2 = '"' :: r ∧ rule4Find '"' r = none :=
  scanAux_rest (l.length + 1) l (Nat.le_succ _)

/-- C5 counterexample: a matcher that honors candidates (always returns a subset of them) but is not monotone across candidate sets makes evaluate(And(x,y), c) exceed evaluate(x, c) intersect evaluate(y, c). -/
theorem and_inclusion_fails_for_honoring_matcher :
    honorsCandidates pCex ∧ pCex.optimize = true ∧
    evaluate pCex 1 0 [] (.and (.token "xa" "q") (.token "yb" "q")) {1, 2} = .ok ({1}, []) ∧
    evaluate pCex 1 0 [] (.token "xa" "q") {1, 2} = .ok ({1}, []) ∧
    evaluate pCex 1 0 [] (.token "yb" "q") {1, 2} = .ok (∅, []) ∧
    ¬ (({1} : Finset Nat) ⊆ {1} ∩ ∅) := by
  refine ⟨?_, rfl, by decide, by decide, by decide, by decide⟩
  intro location query s
  show (if location = "xa" then s ∩ {1} else if s.card ≤ 1 then s else ∅) ⊆ s
  split
  · exact Finset.inter_subset_left
  · split
    · exact Finset.Subset.refl s
    · exact Finset.empty_subset s

/-- C5 amended: when the matcher is pointwise over the candidates it is given (a filter by a per-item predicate), candidates are passed through, and the two expressions contain no saved-search tokens, evaluate(And(x,y), c) is contained in evaluate(x, c) intersect evaluate(y, c). -/
theorem and_inclusion_for_pointwise_matcher (p : SQP) (sat : String → String → Nat → Bool)
    (hopt : p.optimize = true)
    (hm : ∀ location query s,
      p.get_matches location query (some s) = s.filter fun i => sat location query i = true)
    (x y : Expr) (hx : searchFree x = true) (hy : searchFree y = true)
    (fuel level : Nat) (seen : List String) (c ra rx ry : Finset Nat)
    (s1 s2 s3 : List String)
    (ha : evaluate p fuel level seen (.and x y) c = .ok (ra, s1))
    (hxe : evaluate p fuel level seen x c = .ok (rx, s2))
    (hye : evaluate p fuel level seen y c = .ok (ry, s3)) :
    ra ⊆ rx ∩ ry := by
  have hsf : searchFree (.and x y) = true := by simp [searchFree, hx, hy]
  have h1 := evalWith_pointwise p sat hopt hm
    (fun lv sn q cd => underscore_parse p fuel lv sn q cd) (.and x y) hsf level seen c
  have h2 := evalWith_pointwise p sat hopt hm
    (fun lv sn q cd => underscore_parse p fuel lv sn q cd) x hx level seen c
  have h3 := evalWith_pointwise p sat hopt hm
    (fun lv sn q cd => underscore_parse p fuel lv sn q cd) y hy level seen c
  simp only [evaluate] at ha hxe hye
  rw [h1] at ha
  rw [h2] at hxe
  rw [h3] at hye
  simp only [Except.ok.injEq, Prod.mk.injEq] at ha hxe hye
  obtain ⟨ha1, -⟩ := ha
  obtain ⟨hx1, -⟩ := hxe
  obtain ⟨hy1, -⟩ := hye
  subst ha1 hx1 hy1
  intro i hi
  simp only [Finset.mem_filter, semE, Bool.and_eq_true] at hi
  simp only [Finset.mem_inter, Finset.mem_filter]
  exact ⟨⟨hi.1, hi.2.1⟩, hi.1, hi.2.2⟩

/-- Witness for the amended C5 at a concrete pointwise matcher. -/
theorem and_inclusion_for_pointwise_matcher_witness :
    (∀ location query s,
      pPw.get_matches location query (some s) = s.filter fun i => satPw location query i = true) ∧
    searchFree (.token "xa" "q") = true ∧
    searchFree (.token "zb" "q") = true ∧
    evaluate pPw 1 0 [] (.and (.token "xa" "q") (.token "zb" "q")) {1, 2} = .ok ({1}, []) ∧
    evaluate pPw 1 0 [] (.token "xa" "q") {1, 2} = .ok ({1}, []) ∧
    evaluate pPw 1 0 [] (.token "zb" "q") {1, 2} = .ok ({1, 2}, []) ∧
    ({1} : Finset Nat) ⊆ {1} ∩ {1, 2} :=
  ⟨fun _ _ _ => rfl, by decide, by decide, by decide, by decide, by decide,
    and_inclusion_for_pointwise_matcher pPw satPw rfl (fun _ _ _ => rfl)
      (.token "xa" "q") (.token "zb" "q") (by decide) (by decide)
      1 0 [] {1, 2} {1} {1} {1, 2} [] [] []
      (by decide) (by decide) (by decide)⟩

/-- C6: whenever the matcher honors candidates (returns a subset of the candidate set it is given) and the optimize flag passes candidates through to the matcher, the matches of x and of Not(x) over c together are exactly c, for every expression x. -/
theorem evaluate_not_partitions_candidates (p : SQP) (hopt : p.optimize = true)
    (hm : honorsCandidates p) (fuel level : Nat) (seen : List String) (x : Expr)
    (c rx rn : Finset Nat) (s1 s2 : List String)
    (hx : evaluate p fuel level seen x c = .ok (rx, s1))
    (hn : evaluate p fuel level seen (.not x) c = .ok (rn, s2)) :
    rx ∪ rn = c := by
  simp only [evaluate, evalWith] at hn
  simp only [evaluate] at hx
  simp only [hx, Except.ok.injEq, Prod.mk.injEq] at hn
  obtain ⟨h1, -⟩ := hn
  subst h1
  exact Finset.union_sdiff_of_subset (evaluate_subset p hopt hm fuel level seen x c rx s1 hx)

/-- Witness for C6 at a concrete honoring matcher, expression and candidate set. -/
theorem evaluate_not_partitions_candidates_witness :
    evaluate pHon 1 0 [] (.token "a" "b") {1, 2} = .ok ({1}, []) ∧
    evaluate pHon 1 0 [] (.not (.token "a" "b")) {1, 2} = .ok ({2}, []) ∧
    ({1} : Finset Nat) ∪ {2} = {1, 2} :=
  ⟨by decide, by decide,
    evaluate_not_partitions_candidates pHon rfl (fun _ _ s => Finset.inter_subset_left) 1 0 []
      (.token "a" "b") {1, 2} {1} {2} [] [] (by decide) (by decide)⟩

/-- C7: for every location set containing author, parsing author:Asimov yields the single leaf with location author and query Asimov; and for every bare WORD whose lowercased first colon-separated part is not a recognized location, base_token yields a single all-scoped leaf whose query is the entire original word, colons included, without failing. -/
theorem leaf_construction_roundtrip_and_fallback :
    (∀ locations : List String, "author" ∈ locations →
      pParse "author:Asimov" locations = .ok (.token "author" "Asimov")) ∧
    (∀ (locations : List String) (v : String) (rest : List (TokKind × String)),
      pyLower (firstColonPart v) ∉ locations →
      baseToken locations ((.word, v) :: rest) = .ok (.token "all" v, rest)) := by
  constructor
  · intro locations hmem
    have hlex : lexTokens "author:Asimov" = [(.word, "author:Asimov")] := by decide
    have hbt : baseToken locations [(.word, "author:Asimov")] =
        .ok (.token "author" "Asimov", []) := by
      have hs : splitColon "author:Asimov".data =
          [['a','u','t','h','o','r'], ['A','s','i','m','o','v']] := by decide
      have hcond : ([['A','s','i','m','o','v']] : List (List Char)) ≠ [] ∧
          pyLower (String.mk ['a','u','t','h','o','r']) ∈ locations := by
        refine ⟨by simp, ?_⟩
        have h0 : pyLower (String.mk ['a','u','t','h','o','r']) = "author" := by decide
        rw [h0]
        exact hmem
      have hcond2 : ¬((([['A','s','i','m','o','v']] : List (List Char))).length = 1 ∧
          tokKind ([] : List (TokKind × String)) = some TokKind.quoted) := by
        rintro ⟨-, hc⟩
        simp [tokKind] at hc
      simp only [baseToken, hs]
      rw [if_pos hcond, if_neg hcond2]
      decide
    simp only [pParse, parserFuel, hlex]
    rw [show (100 : Nat) = 96 + 4 from rfl]
    rw [parseRule_single_word locations 96 "author:Asimov" (by decide), hbt]
    simp
  · intro locations v rest hmem
    simp only [baseToken]
    cases hs : splitColon v.data with
    | nil => exact absurd hs (splitColon_ne_nil v.data)
    | cons w0 wrest =>
      simp only [hs]
      rw [if_neg]
      · have hv : String.mk (joinColon (w0 :: wrest)) = v := by
          rw [← hs, joinColon_splitColon]
        rw [hv]
      · rintro ⟨-, hin⟩
        apply hmem
        have hf : firstColonPart v = String.mk w0 := by simp [firstColonPart, hs]
        rw [hf]
        exact hin


/-- Witness for C7 at a concrete location set and a concrete unrecognized word. -/
theorem leaf_construction_roundtrip_and_fallback_witness :
    ("author" ∈ (["author"] : List String)) ∧
    pParse "author:Asimov" ["author"] = .ok (.token "author" "Asimov") ∧
    pyLower (firstColonPart "za:w") ∉ (["author"] : List String) ∧
    baseToken ["author"] [(.word, "za:w")] = .ok (.token "all" "za:w", []) :=
  ⟨by decide, leaf_construction_roundtrip_and_fallback.1 ["author"] (by decide),
    by decide, leaf_construction_roundtrip_and_fallback.2 ["author"] "za:w" [] (by decide)⟩

/-- C8: the query Tolstoy txt parses identically to Tolstoy and txt for every location set; and in general, when after a not_expression the next token is a WORD or QUOTED_WORD whose lowercase form is not or, a successful and_expression wraps the pair in an And node. -/
theorem implicit_and_insertion :
    (∀ locations : List String,
      pParse "Tolstoy txt" locations = pParse "Tolstoy and txt" locations ∧
      pParse "Tolstoy txt" locations =
        .ok (.and (.token "all" "Tolstoy") (.token "all" "txt"))) ∧
    (∀ (locations : List String) (f : Nat) (ts ts1 ts2 : List (TokKind × String))
        (lhs e : Expr),
      parseRule locations f .notR ts = .ok (lhs, ts1) →
      (tokKind ts1 = some .word ∨ tokKind ts1 = some .quoted) →
      lcaseTok ts1 ≠ some "or" →
      parseRule locations (f + 1) .andR ts = .ok (e, ts2) →
      ∃ rhs, e = .and lhs rhs) := by
  constructor
  · exact fun locations => ⟨rfl, rfl⟩
  · intro locations f ts ts1 ts2 lhs e h1 h2 h3 h4
    simp only [parseRule, h1] at h4
    split at h4
    · cases hr : parseRule locations f .andR ts1.tail with
      | error er => simp [hr] at h4
      | ok x =>
        simp only [hr] at h4
        simp only [Except.ok.injEq, Prod.mk.injEq] at h4
        exact ⟨x.1, h4.1.symm⟩
    · split at h4
      · cases hr : parseRule locations f .andR ts1 with
        | error er => simp [hr] at h4
        | ok x =>
          simp only [hr] at h4
          simp only [Except.ok.injEq, Prod.mk.injEq] at h4
          exact ⟨x.1, h4.1.symm⟩
      · rename_i hc1 hc2
        exact absurd ⟨h2, h3⟩ hc2

/-- Witness for C8 at a concrete token stream. -/
theorem implicit_and_insertion_witness :
    parseRule [] 9 .notR [(.word, "a"), (.word, "b")] =
      .ok (.token "all" "a", [(.word, "b")]) ∧
    tokKind [(.word, "b")] = some TokKind.word ∧
    lcaseTok [(.word, "b")] ≠ some "or" ∧
    parseRule [] 10 .andR [(.word, "a"), (.word, "b")] =
      .ok (.and (.token "all" "a") (.token "all" "b"), []) ∧
    ∃ rhs, Expr.and (.token "all" "a") (.token "all" "b") = .and (.token "all" "a") rhs :=
  ⟨by decide, by decide, by decide, by decide,
    implicit_and_insertion.2 [] 9 [(.word, "a"), (.word, "b")] [(.word, "b")] []
      (.token "all" "a") (.and (.token "all" "a") (.token "all" "b"))
      (by decide) (Or.inl (by decide)) (by decide) (by decide)⟩

/-- C9: the result of evaluating Not(x) over candidates c is a subset of c unconditionally, for every matcher and every saved-search store, because it is computed as a set difference from c. -/
theorem evaluate_not_subset_candidates (p : SQP) (fuel level : Nat) (seen : List String)
    (x : Expr) (c r : Finset Nat) (s2 : List String)
    (h : evaluate p fuel level seen (.not x) c = .ok (r, s2)) : r ⊆ c := by
  simp only [evaluate, evalWith] at h
  cases hX : evalWith p (fun lv sn q cd => underscore_parse p fuel lv sn q cd) level seen x c with
  | error e => simp [hX] at h
  | ok y =>
    obtain ⟨X, s1⟩ := y
    simp only [hX, Except.ok.injEq, Prod.mk.injEq] at h
    obtain ⟨h1, -⟩ := h
    subst h1
    exact Finset.sdiff_subset

/-- Witness for C9 at a concrete matcher, expression and candidate set. -/
theorem evaluate_not_subset_candidates_witness :
    evaluate pHon 1 0 [] (.not (.token "a" "b")) {1, 2} = .ok ({2}, []) ∧
    ({2} : Finset Nat) ⊆ {1, 2} :=
  ⟨by decide, evaluate_not_subset_candidates pHon 1 0 [] (.token "a" "b") {1, 2} {2} [] (by decide)⟩

/-- C10 counterexample: renaming a missing name to itself first stores None under it and then pops it, so the name does not appear in names() afterwards, contrary to the claim read over all name pairs. -/
theorem rename_self_missing_counterexample :
    SavedSearchQueries.lookup ⟨[]⟩ "a" = none ∧
    SavedSearchQueries.rename ⟨[]⟩ "a" "a" = ⟨[]⟩ ∧
    SavedSearchQueries.names (SavedSearchQueries.rename ⟨[]⟩ "a" "a") = [] ∧
    "a" ∉ SavedSearchQueries.names (SavedSearchQueries.rename ⟨[]⟩ "a" "a") := by
  refine ⟨by decide, by decide, by decide, by decide⟩

/-- C10 amended: renaming a name with no stored query to a distinct new name does not fail: it stores the absent marker None under the new name, so the new name appears in names() while lookup on it still returns the absent marker.  When old and new coincide the subsequent pop removes the entry again, so the new name does not appear in names(). -/
theorem rename_missing_stores_absent_marker (s : SavedSearchQueries) (old_name new_name : String)
    (hne : old_name ≠ new_name) (habs : s.lookup old_name = none) :
    (s.rename old_name new_name).lookup new_name = none ∧
    new_name ∈ (s.rename old_name new_name).names := by
  constructor
  · show SavedSearchQueries.lookup _ new_name = none
    simp only [SavedSearchQueries.rename, SavedSearchQueries.lookup]
    rw [dictGet_dictPop_ne _ new_name old_name hne, dictGet_dictSet_self]
    simp only [SavedSearchQueries.lookup] at habs
    rw [habs]
  · show new_name ∈ SavedSearchQueries.names _
    simp only [SavedSearchQueries.rename, SavedSearchQueries.names, mem_insSort]
    exact mem_keys_dictPop_ne _ new_name old_name (fun h => hne h.symm)
      (mem_keys_dictSet s.queries new_name _)

/-- Witness for the amended C10 at a concrete store. -/
theorem rename_missing_stores_absent_marker_witness :
    SavedSearchQueries.lookup ⟨[("b", some "t")]⟩ "a" = none ∧
    SavedSearchQueries.lookup
      (SavedSearchQueries.rename ⟨[("b", some "t")]⟩ "a" "c") "c" = none ∧
    "c" ∈ SavedSearchQueries.names (SavedSearchQueries.rename ⟨[("b", some "t")]⟩ "a" "c") :=
  ⟨by decide,
    (rename_missing_stores_absent_marker ⟨[("b", some "t")]⟩ "a" "c" (by decide) (by decide)).1,
    (rename_missing_stores_absent_marker ⟨[("b", some "t")]⟩ "a" "c" (by decide) (by decide)).2⟩

end CalibreSQP
